import Mathlib

/-!
Verification development for the zstore erasure-coded object storage engine.

The definitions below are a shallow embedding of the Go sources:

* `internal/service/erasure_coding_service.go` — `ShardFile`, `ReconstructFile`;
* `internal/service/file_service.go` — `UploadFile`, `uploadShards`,
  `downloadShards`, `verifyFileIntegrity`;
* `internal/placement/round_robin.go` — `RoundRobinPlacer`;
* `internal/repository/objectstore` — the S3/GCS drivers and the factory;
* `cmd/main.go` — `initRepositories`.

Byte sequences are `List Nat` (each entry a byte value), Go strings are
`String`, and Go errors are the inductive `ZErr` mirroring the repository's
error taxonomy.  Side effects on external collaborators (drivers, the
metadata store) are modelled by explicit environment records and event
traces.  Definitions whose Go source is an external dependency that is not
part of the repository (the klauspost/reedsolomon codec internals, the Go
standard library's `hash/crc64` table) carry a doc comment saying what they
are modelled from.
-/

namespace Zstore

/-- The CRC64-ISO polynomial, reversed-bit representation, as in Go's
`hash/crc64` (`crc64.ISO = 0xD800000000000000`). -/
def crc64Poly : Nat := 0xD800000000000000

/-- One bit step of the CRC64 computation: shift right, conditionally XOR the
polynomial.  Modelled from the spec: Go's `hash/crc64` is the standard
library implementation of the table-driven CRC; the table entry for a byte
equals eight of these bit steps, so byte-at-a-time table processing equals
this bitwise form. -/
def crcBit (c : Nat) : Nat :=
  if c % 2 = 1 then (c >>> 1) ^^^ crc64Poly else c >>> 1

/-- One byte step: XOR the byte into the low bits, then eight bit steps. -/
def crcByte (c b : Nat) : Nat :=
  crcBit (crcBit (crcBit (crcBit (crcBit (crcBit (crcBit (crcBit (c ^^^ (b % 256)))))))))

/-- `crc64.Checksum(data, crc64.MakeTable(crc64.ISO))`: initial and final
complement (XOR with `2^64 - 1`) around the byte folds. -/
def crc64 (data : List Nat) : Nat :=
  0xFFFFFFFFFFFFFFFF ^^^ (data.foldl crcByte 0xFFFFFFFFFFFFFFFF)

/-- One lowercase hexadecimal digit. -/
def hexDigitChar (d : Nat) : Char :=
  if d < 10 then Char.ofNat (48 + d) else Char.ofNat (87 + d)

/-- `fmt.Sprintf("%016x", n)` for a 64-bit value: sixteen lowercase hex
digits, zero padded, most significant nibble first. -/
def hex16 (n : Nat) : String :=
  String.mk ((List.range 16).map (fun i => hexDigitChar ((n >>> ((15 - i) * 4)) % 16)))

/-- `domain.ShardStorage` (fields as used throughout
`internal/service`): the manifest slot for one shard. -/
structure ShardStorage where
  hash : String
  storageType : String
  bucketName : String
  key : String
deriving DecidableEq, Repr, Inhabited

/-- `domain.ObjectMetadata`: the manifest of one logical object.  The Go
field `Prefix` is named `filePrefix` here because `prefix` is reserved in
Lean. -/
structure ObjectMetadata where
  filePrefix : String
  fileName : String
  originalSize : Nat
  shardSize : Nat
  parityShards : Nat
  shardHashes : List ShardStorage
deriving DecidableEq, Repr

/-- The repository's error taxonomy (`internal/errors/error.go` plus the
errors surfaced by the codec and drivers).  `encodeError` stands for the
parameter-rejection errors of `reedsolomon.New`, `shortData` for the
codec's short-data error on `Join`, `decodeError` for a failure of the
field reconstruction itself. -/
inductive ZErr where
  | encodeError
  | emptyFile
  | insufficientShards
  | fileIntegrityCheck
  | decodeError
  | shortData
  | noBucketsRegistered
  | bucketAlreadyRegistered (b : String)
  | noRepositoryForBucket (b : String)
  | uploadFailed (i : Nat)
  | createMetadataFailed
deriving DecidableEq, Repr

/-- Modelled from the spec: the klauspost/reedsolomon encoder is an external
dependency whose sources are not part of this repository.  The spec (§4.1)
fixes the systematic shape — the first `k` shards are the zero-padded
payload split, the last `m` are parity over GF(2^8) — but not the parity
values, so the parity generator and the field reconstruction of missing
shards are abstracted into this backend record.  `parityLength` records
the one shape fact the spec does fix: `m` parity shards are produced. -/
structure RSBackend where
  parity : Nat → Nat → List (List Nat) → List (List Nat)
  parityLength : ∀ k m chunks, (parity k m chunks).length = m
  fieldReconstruct : Nat → List (Option (List Nat)) → Option (List (List Nat))

/-- A trivial backend instance (all-zero parity, reconstruction always
failing); used only to evaluate the model on concrete inputs. -/
def zeroRS : RSBackend where
  parity := fun _ m chunks => List.replicate m (List.replicate (chunks.headD []).length 0)
  parityLength := by intro k m chunks; simp
  fieldReconstruct := fun _ _ => none

/-- Per-shard size chosen by `reedsolomon.Split`: `(len + k - 1) / k`
(ceiling division), so that `k` shards of this size cover the payload. -/
def perShardSize (k len : Nat) : Nat := (len + k - 1) / k

/-- Zero padding of a byte sequence up to length `n`. -/
def zeroPad (data : List Nat) (n : Nat) : List Nat :=
  data ++ List.replicate (n - data.length) 0

/-- Split a (padded) byte sequence into `k` chunks of `sz` bytes each. -/
def chunksOf (k sz : Nat) (l : List Nat) : List (List Nat) :=
  (List.range k).map (fun i => ((l.drop (i * sz)).take sz))

/-- The `k` data shards of `reedsolomon.Split`: the payload zero-padded to
`k * perShard` bytes and cut into `k` pieces. -/
def dataChunks (data : List Nat) (k : Nat) : List (List Nat) :=
  chunksOf k (perShardSize k data.length)
    (zeroPad data (k * perShardSize k data.length))

/-- The full shard list after `Split` and `Encode`: the `k` data chunks
followed by the `m` parity shards. -/
def rsShards (rs : RSBackend) (data : List Nat) (k m : Nat) : List (List Nat) :=
  dataChunks data k ++ rs.parity k m (dataChunks data k)

/-- The manifest seed built by `ShardFile`: sizes, the parity count, and
one slot per shard holding its CRC64-ISO fingerprint with empty placement
fields. -/
def rsMeta (rs : RSBackend) (data : List Nat) (k m : Nat) : ObjectMetadata where
  filePrefix := ""
  fileName := ""
  originalSize := data.length
  shardSize := ((dataChunks data k).headD []).length
  parityShards := m
  shardHashes := (rsShards rs data k m).map (fun s => ShardStorage.mk (hex16 (crc64 s)) "" "" "")

/-- `service.ShardFile` (erasure_coding_service.go:11-47): build the
Reed-Solomon encoder, split the payload into `k` data shards plus `m`
parity shards, and record the CRC64-ISO fingerprint of every shard in a
fresh manifest whose placement fields are empty.  The parameter validation
of `reedsolomon.New` and the empty-payload rejection of `Split` are
modelled from the spec (§4.1: fails if `k < 1` or `m < 1`; fails on an
empty payload). -/
def ShardFile (rs : RSBackend) (data : List Nat) (dataShards parityShards : Nat) :
    Except ZErr (ObjectMetadata × List (List Nat)) :=
  if dataShards < 1 ∨ parityShards < 1 then .error .encodeError
  else if data.length = 0 then .error .emptyFile
  else .ok (rsMeta rs data dataShards parityShards, rsShards rs data dataShards parityShards)

/-- `reedsolomon.Join` as used by `ReconstructFile`: concatenate the first
`k` (data) shards and keep exactly `outSize` bytes; error when fewer bytes
than `outSize` are available (the codec's short-data error). -/
def joinShards (shards : List (List Nat)) (k outSize : Nat) : Except ZErr (List Nat) :=
  if shards.length < k then .error .insufficientShards
  else if ((shards.take k).flatten).length < outSize then .error .shortData
  else .ok (((shards.take k).flatten).take outSize)

/-- Number of present shards in a sparse shard sequence after it has been
sized to `total` entries (the `make`/`copy` of ReconstructFile). -/
def sizedShards (total : Nat) (shards : List (Option (List Nat))) :
    List (Option (List Nat)) :=
  shards.take total ++ List.replicate (total - shards.length) none

/-- `service.ReconstructFile` (erasure_coding_service.go:49-73): derive
`k = len(shard_slots) - parity_shards`, size the sparse shard sequence to
`k + m` entries, reconstruct missing shards when at least `k` are present,
and join the data shards trimmed to `original_size`.  The presence checks
and error outcomes of `reedsolomon.Reconstruct` are modelled from the spec
(§4.1: fewer than `k` present fails with the insufficient-shards error;
a failure of the field reconstruction itself is the decode error). -/
def ReconstructFile (rs : RSBackend) (shards : List (Option (List Nat)))
    (meta : ObjectMetadata) : Except ZErr (List Nat) :=
  if meta.shardHashes.length - meta.parityShards < 1 ∨ meta.parityShards < 1 then
    .error .encodeError
  else if (sizedShards meta.shardHashes.length shards).countP (fun o => o.isSome)
      = meta.shardHashes.length then
    joinShards ((sizedShards meta.shardHashes.length shards).map (fun o => o.getD []))
      (meta.shardHashes.length - meta.parityShards) meta.originalSize
  else if (sizedShards meta.shardHashes.length shards).countP (fun o => o.isSome)
      < meta.shardHashes.length - meta.parityShards then
    .error .insufficientShards
  else
    match rs.fieldReconstruct (meta.shardHashes.length - meta.parityShards)
        (sizedShards meta.shardHashes.length shards) with
    | none => .error .decodeError
    | some full =>
      joinShards full (meta.shardHashes.length - meta.parityShards) meta.originalSize

/-- The backend family of a driver, as built by
`objectstore.NewObjectRepositoryFactory`: only S3 and GCS drivers exist. -/
inductive RepoKind where
  | s3
  | gcs
deriving DecidableEq, Repr

/-- `GetStorageType` of the two drivers (s3_object_repository.go:35,
gcs_object_repository.go:153). -/
def RepoKind.storageType : RepoKind → String
  | .s3 => "s3"
  | .gcs => "gcs"

/-- An instantiated object-store driver: its family and the physical bucket
name it was built with (`r.bucketName`).  `Upload` of both drivers returns
the string `bucketName ++ "/" ++ key`. -/
structure Repo where
  kind : RepoKind
  physName : String
deriving DecidableEq, Repr

/-- `placement.RoundRobinPlacer` (round_robin.go): the registered buckets.
The Go struct keeps an insertion-ordered `bucketNames` slice plus a
`repositories` map; an association list carries both (`map Prod.fst` is the
slice, `List.lookup` is the map). -/
structure RoundRobinPlacer where
  buckets : List (String × Repo)
deriving DecidableEq, Repr

/-- `RegisterBucket` (round_robin.go:27-39): reject a duplicate logical
name, otherwise append. -/
def registerBucket (p : RoundRobinPlacer) (bucketName : String) (repo : Repo) :
    Except ZErr RoundRobinPlacer :=
  if (p.buckets.lookup bucketName).isSome then .error (.bucketAlreadyRegistered bucketName)
  else .ok ⟨p.buckets ++ [(bucketName, repo)]⟩

/-- `GetRepositoryForBucket` (round_robin.go:42-51): exact map lookup. -/
def getRepositoryForBucket (p : RoundRobinPlacer) (bucketName : String) :
    Except ZErr Repo :=
  match p.buckets.lookup bucketName with
  | some repo => .ok repo
  | none => .error (.noRepositoryForBucket bucketName)

/-- The bucket name `Place` selects: position `shardIndex mod |B|` of the
insertion-ordered name slice (round_robin.go:61-62). -/
def placeName (p : RoundRobinPlacer) (shardIndex : Nat) : String :=
  (p.buckets.map Prod.fst).getD (shardIndex % p.buckets.length) ""

/-- `Place` (round_robin.go:53-66): round robin over the insertion-ordered
bucket names, then a map lookup of the chosen name (`getD` with a zero
value mirrors Go's map indexing, which cannot miss here because the slice
and the map are kept in step). -/
def place (p : RoundRobinPlacer) (shardIndex : Nat) :
    Except ZErr (String × Repo) :=
  if p.buckets.length = 0 then .error .noBucketsRegistered
  else .ok (placeName p shardIndex,
    (p.buckets.lookup (placeName p shardIndex)).getD ⟨.s3, ""⟩)

/-- `ListBuckets` (round_robin.go:69-76): the registered names in
registration order. -/
def listBuckets (p : RoundRobinPlacer) : List String :=
  p.buckets.map Prod.fst

/-- `config.BucketConfig` as consumed by `createRepository` in cmd/main.go
(bucket name, platform tag, region). -/
structure BucketCfg where
  bucketName : String
  platform : String
  region : String
deriving DecidableEq, Repr

/-- `ObjectRepositoryFactory.CreateRepository`
(object_store_factory.go:58-78): an S3 driver needs a region, a GCS driver
needs the globally configured GCS client, any other platform tag is
rejected. -/
def createRepository (gcsConfigured : Bool) (cfg : BucketCfg) : Option Repo :=
  match cfg.platform with
  | "s3" => if cfg.region = "" then none else some ⟨.s3, cfg.bucketName⟩
  | "gcs" => if gcsConfigured then some ⟨.gcs, cfg.bucketName⟩ else none
  | _ => none

/-- `initRepositories` (cmd/main.go:132-148): register every bucket whose
driver the factory can build.  The Go code iterates a `map[string]BucketConfig`;
a Go map's iteration order is unspecified and deliberately randomized per
run, so the embedding takes the iteration sequence — some permutation of
the map's entries — as the `bucketsIter` argument.  The error returned by
`RegisterBucket` is discarded, as in the source. -/
def initRepositories (gcsConfigured : Bool)
    (bucketsIter : List (String × BucketCfg)) : RoundRobinPlacer :=
  bucketsIter.foldl
    (fun placer entry =>
      match createRepository gcsConfigured entry.2 with
      | none => placer
      | some repo =>
        match registerBucket placer entry.1 repo with
        | .ok placer2 => placer2
        | .error _ => placer)
    ⟨[]⟩

/-- `filepath.Base` for the slash-separated keys the engine handles: the
part after the last separator (Go returns "." for an empty path). -/
def goBase (p : String) : String :=
  if p = "" then "." else (p.splitOn ("/")).getLastD p

/-- `filepath.Dir` for the slash-separated keys the engine handles: the
part before the last separator, "." when there is none. -/
def goDir (p : String) : String :=
  match (p.splitOn ("/")).dropLast with
  | [] => "."
  | parts => String.intercalate ("/") parts

/-- `strings.SplitN(s, "/", 2)` on a string that contains a separator:
the part before the first '/' and everything after it.  `uploadShards`
indexes `parts[1]`, which exists because the driver's returned path always
contains the separator it inserted. -/
def splitFirstSlash (s : String) : String × String :=
  (String.mk (s.data.takeWhile (fun c => c ≠ '/')),
   String.mk ((s.data.dropWhile (fun c => c ≠ '/')).drop 1))

/-- Observable calls the upload path makes on external collaborators:
the best-effort `DeletePrefix` cleanup per bucket (with the collaborator's
answer, which the engine discards) and the final `CreateMetadata`. -/
inductive Event where
  | cleanupCall (bucket key : String) (failed : Bool)
  | createMeta (meta : ObjectMetadata)
deriving DecidableEq, Repr

/-- Environment of one upload run: which per-shard driver uploads succeed,
the error a failing one yields, the order in which worker results drain
from the channels (a permutation of the shard indices — goroutine
completion order), whether each bucket's cleanup `DeletePrefix` fails, and
whether the final metadata write succeeds. -/
structure UploadEnv where
  uploadOk : Nat → Bool
  uploadErrOf : Nat → ZErr
  comp : List Nat
  cleanupFails : String → Bool
  createOk : Bool

/-- The body of one upload goroutine (file_service.go:199-239) for shard
`i`: place the shard, upload it under `key ++ "/" ++ hash`, and on success
report the storage triple parsed from the driver's returned path. -/
def shardAttempt (p : RoundRobinPlacer) (env : UploadEnv) (key : String)
    (meta : ObjectMetadata) (i : Nat) :
    Except ZErr (Nat × String × String × String) :=
  let originalHash := (meta.shardHashes.getD i default).hash
  let shardKey := key ++ "/" ++ originalHash
  match place p i with
  | .error e => .error e
  | .ok (bucketName, repo) =>
    if env.uploadOk i then
      let path := repo.physName ++ "/" ++ shardKey
      .ok (i, repo.kind.storageType, bucketName, (splitFirstSlash path).2)
    else .error (env.uploadErrOf i)

/-- All worker results in channel (completion) order. -/
def uploadResults (p : RoundRobinPlacer) (env : UploadEnv) (key : String)
    (meta : ObjectMetadata) (n : Nat) :
    List (Except ZErr (Nat × String × String × String)) :=
  env.comp.filterMap (fun i =>
    if i < n then some (shardAttempt p env key meta i) else none)

/-- Contents of `errorCh` in channel order. -/
def uploadErrs (p : RoundRobinPlacer) (env : UploadEnv) (key : String)
    (meta : ObjectMetadata) (n : Nat) : List ZErr :=
  (uploadResults p env key meta n).filterMap (fun r =>
    match r with
    | .error e => some e
    | .ok _ => none)

/-- Contents of `pathCh` in channel order. -/
def uploadPaths (p : RoundRobinPlacer) (env : UploadEnv) (key : String)
    (meta : ObjectMetadata) (n : Nat) : List (Nat × String × String × String) :=
  (uploadResults p env key meta n).filterMap (fun r =>
    match r with
    | .error _ => none
    | .ok v => some v)

/-- The fail-fast error drain of `uploadShards` (file_service.go:250-267):
count the errors, remember the first, return it early once the count
exceeds the parity budget, and still return it after the loop if any
occurred. -/
def drainLoop (errs : List ZErr) (errorCount : Nat) (uploadErr : Option ZErr)
    (parityShards : Nat) : Option ZErr :=
  match errs with
  | [] => uploadErr
  | e :: rest =>
    let errorCount := errorCount + 1
    let uploadErr := some (uploadErr.getD e)
    if parityShards < errorCount then uploadErr
    else drainLoop rest errorCount uploadErr parityShards

/-- Stamp one manifest slot with the storage triple of a successful shard
upload (file_service.go:271-275): the slot's hash is preserved, the three
placement fields are overwritten. -/
def setSlot (meta : ObjectMetadata) (i : Nat) (st bn k : String) : ObjectMetadata :=
  let old := meta.shardHashes.getD i default
  { meta with shardHashes :=
      meta.shardHashes.set i { old with storageType := st, bucketName := bn, key := k } }

/-- Drain `pathCh`, stamping each reported slot. -/
def applyPaths (meta : ObjectMetadata)
    (paths : List (Nat × String × String × String)) : ObjectMetadata :=
  paths.foldl (fun m v => setSlot m v.1 v.2.1 v.2.2.1 v.2.2.2) meta

/-- `FileService.uploadShards` (file_service.go:186-278): run every shard's
upload, then the fail-fast drain; with zero errors stamp the manifest with
the collected storage triples. -/
def uploadShards (p : RoundRobinPlacer) (env : UploadEnv) (key : String)
    (shards : List (List Nat)) (meta : ObjectMetadata) (parityShards : Nat) :
    Except ZErr ObjectMetadata :=
  match drainLoop (uploadErrs p env key meta shards.length) 0 none parityShards with
  | some e => .error e
  | none => .ok (applyPaths meta (uploadPaths p env key meta shards.length))

/-- Attaching the derived `prefix`/`file_name` of the object key to the
manifest (file_service.go:93-96). -/
def stampName (meta : ObjectMetadata) (key : String) : ObjectMetadata :=
  { meta with filePrefix := goDir key, fileName := goBase key }

/-- The pre-upload cleanup pass (file_service.go:98-106): for every
registered bucket whose repository resolves, call `DeletePrefix(key)` and
discard its answer. -/
def cleanupEvents (p : RoundRobinPlacer) (env : UploadEnv) (key : String) :
    List Event :=
  (listBuckets p).filterMap (fun b =>
    match getRepositoryForBucket p b with
    | .ok _ => some (Event.cleanupCall b key (env.cleanupFails b))
    | .error _ => none)

/-- `FileService.UploadFile` (file_service.go:66-121): read the payload,
reject an empty one, shard it, attach prefix and file name, run the
best-effort cleanup pass, upload the shards, and finally write the
manifest.  Returns the event trace alongside the result. -/
def UploadFile (p : RoundRobinPlacer) (env : UploadEnv) (rs : RSBackend)
    (key : String) (data : List Nat) (dataShards parityShards : Nat) :
    List Event × Except ZErr Unit :=
  if data.length = 0 then ([], .error .emptyFile)
  else
    match ShardFile rs data dataShards parityShards with
    | .error e => ([], .error e)
    | .ok (meta0, shards) =>
      match uploadShards p env key shards (stampName meta0 key) parityShards with
      | .error e => (cleanupEvents p env key, .error e)
      | .ok meta2 =>
        (cleanupEvents p env key ++ [Event.createMeta meta2],
         if env.createOk then .ok () else .error .createMetadataFailed)

/-- Environment of one download run: the bytes the driver returns for
shard `i` (`none` for a driver failure), whether the shard's temp file can
be created, and whether writing/reading it back succeeds. -/
structure DlEnv where
  download : Nat → Option (List Nat)
  tempOk : Nat → Bool
  writeOk : Nat → Bool

/-- Bookkeeping of `downloadShards`: the `shardFiles` slot array, the
indices whose temp files currently exist on disk, and the two counters. -/
structure DlState where
  files : List (Option (List Nat))
  live : List Nat
  successful : Nat
  failed : Nat
deriving DecidableEq, Repr

/-- `verifyFileIntegrity` (file_service.go:383-393): recompute the
CRC64-ISO of the data, format it as 16 hex digits, compare to the recorded
hash. -/
def verifyFileIntegrity (data : List Nat) (expectedHash : String) : Bool :=
  hex16 (crc64 data) = expectedHash

/-- One iteration of the sequential download loop
(file_service.go:305-363) for shard `i`: resolve the bucket's repository,
download, spill to a temp file, read it back, verify its integrity; every
failure removes the temp file it may have created and counts the shard as
failed, success keeps the temp file and counts it. -/
def processShard (p : RoundRobinPlacer) (env : DlEnv) (i : Nat)
    (slot : ShardStorage) (st : DlState) : DlState :=
  match getRepositoryForBucket p slot.bucketName with
  | .error _ => { st with failed := st.failed + 1 }
  | .ok _ =>
    match env.download i with
    | none => { st with failed := st.failed + 1 }
    | some bytes =>
      if ¬ env.tempOk i then { st with failed := st.failed + 1 }
      else if ¬ env.writeOk i then { st with failed := st.failed + 1 }
      else if ¬ verifyFileIntegrity bytes slot.hash then
        { st with failed := st.failed + 1 }
      else
        { st with files := st.files.set i (some bytes),
                  live := i :: st.live,
                  successful := st.successful + 1 }

/-- The sequential loop of `downloadShards` (file_service.go:294-364):
process the slots in order, stopping early once enough shards succeeded or
once too many failed. -/
def dlGo (p : RoundRobinPlacer) (env : DlEnv) (minNeeded parityShards : Nat) :
    Nat → List ShardStorage → DlState → DlState
  | _, [], st => st
  | i, slot :: rest, st =>
    if minNeeded ≤ st.successful then st
    else if parityShards < st.failed then st
    else dlGo p env minNeeded parityShards (i + 1) rest (processShard p env i slot st)

/-- The initial bookkeeping state of `downloadShards`: `shardFiles` all
nil, nothing on disk, both counters zero. -/
def dlInit (n : Nat) : DlState :=
  { files := List.replicate n none, live := [], successful := 0, failed := 0 }

/-- The bookkeeping state after the download loop has run over the whole
manifest. -/
def dlFinal (p : RoundRobinPlacer) (env : DlEnv)
    (shardHashes : List ShardStorage) (parityShards : Nat) : DlState :=
  dlGo p env (shardHashes.length - parityShards) parityShards 0 shardHashes
    (dlInit shardHashes.length)

/-- `FileService.downloadShards` (file_service.go:281-380): run the loop;
with fewer than `minShardsNeeded` successes remove every temp file still
on disk (the non-nil entries of `shardFiles`) and fail with the
insufficient-shards error.  The second component is the list of temp-file
indices still existing when the call returns. -/
def downloadShards (p : RoundRobinPlacer) (env : DlEnv)
    (shardHashes : List ShardStorage) (parityShards : Nat) :
    Except ZErr (List (Option (List Nat))) × List Nat :=
  if (dlFinal p env shardHashes parityShards).successful
      < shardHashes.length - parityShards then
    (.error .insufficientShards,
     (dlFinal p env shardHashes parityShards).live.filter
       (fun i => ¬ ((dlFinal p env shardHashes parityShards).files.getD i none).isSome))
  else (.ok (dlFinal p env shardHashes parityShards).files,
        (dlFinal p env shardHashes parityShards).live)

/-- Shard `i` of a download run ends verified exactly when the repository
resolves, the driver and the temp-file plumbing succeed, and the CRC64
check passes. -/
def shardVerifies (p : RoundRobinPlacer) (env : DlEnv) (i : Nat)
    (slot : ShardStorage) : Bool :=
  (getRepositoryForBucket p slot.bucketName).isOk &&
    match env.download i with
    | none => false
    | some bytes => env.tempOk i && env.writeOk i && verifyFileIntegrity bytes slot.hash

/-- Number of shards of the manifest that the environment would let end up
verified, counting from shard `i0`. -/
def goodCount (p : RoundRobinPlacer) (env : DlEnv) (i0 : Nat)
    (slots : List ShardStorage) : Nat :=
  match slots with
  | [] => 0
  | slot :: rest =>
    (if shardVerifies p env i0 slot then 1 else 0) + goodCount p env (i0 + 1) rest

deriving instance DecidableEq for Except

/-- Concrete two-bucket placer used to evaluate the model on closed
inputs. -/
def pW : RoundRobinPlacer :=
  ⟨[(("b1"), ⟨.s3, ("phys1")⟩), (("b2"), ⟨.gcs, ("phys2")⟩)]⟩

/-- Concrete upload environment where everything succeeds (completion
order 2, 0, 1; all cleanup calls fail and are ignored). -/
def envW : UploadEnv :=
  ⟨fun _ => true, fun i => .uploadFailed i, [2, 0, 1], fun _ => true, true⟩

/-- Concrete upload environment where the upload of shard 1 fails. -/
def envFailW : UploadEnv :=
  ⟨fun i => i != 1, fun i => .uploadFailed i, [2, 1, 0], fun _ => false, true⟩

/-- An association-list lookup at the first component of the `j`-th entry
returns that entry's second component when the keys are distinct. -/
theorem lookup_get_of_nodup (l : List (String × Repo))
    (hnd : (l.map Prod.fst).Nodup) (j : Nat) (hj : j < l.length) :
    l.lookup (l.get ⟨j, hj⟩).1 = some (l.get ⟨j, hj⟩).2 := by
  induction l generalizing j with
  | nil => simp at hj
  | cons a t ih =>
    cases j with
    | zero => simp [List.lookup]
    | succ j =>
      have hj2 : j < t.length := by simpa using hj
      have hmem : (t.get ⟨j, hj2⟩).1 ∈ t.map Prod.fst :=
        List.mem_map_of_mem _ (List.get_mem t j hj2)
      have hne3 : ((t.get ⟨j, hj2⟩).1 == a.1) = false := by
        simp only [beq_eq_false_iff_ne, ne_eq]
        intro h
        have hina : a.1 ∈ t.map Prod.fst := h ▸ hmem
        exact (List.nodup_cons.1 (by simpa using hnd)).1 hina
      have ihj := ih (List.nodup_cons.1 (by simpa using hnd)).2 j hj2
      simp only [List.get_eq_getElem] at hne3 ihj
      simpa [List.lookup, hne3] using ihj

/-- The default `(name, driver)` pair standing for Go's map zero value in
the `Place` embedding. -/
def zeroPair : String × Repo := (("" : String), ⟨.s3, ("" : String)⟩)

/-- C8.  `Place` (round_robin.go:53-66) on an empty registry fails with the
no-buckets error; on a non-empty registry it returns the registered
`(bucket, driver)` pair at position `i mod |B|` of the insertion order,
deterministically; and distinct indices below `|B|` reach distinct
buckets. -/
theorem place_round_robin (p : RoundRobinPlacer)
    (hnd : (p.buckets.map Prod.fst).Nodup) :
    (p.buckets = [] → ∀ i, place p i = .error .noBucketsRegistered) ∧
    (p.buckets ≠ [] → ∀ i, place p i =
       .ok (p.buckets.getD (i % p.buckets.length) zeroPair)) ∧
    (∀ i j, i < p.buckets.length → j < p.buckets.length → i ≠ j →
       place p i ≠ place p j) := by
  have hok : p.buckets ≠ [] → ∀ i, place p i =
      .ok (p.buckets.getD (i % p.buckets.length) zeroPair) := by
    intro hne i
    have hlen : 0 < p.buckets.length := List.length_pos.2 hne
    have hidx : i % p.buckets.length < p.buckets.length := Nat.mod_lt _ hlen
    have hname : (p.buckets.map Prod.fst).getD (i % p.buckets.length) ("" : String)
        = (p.buckets.get ⟨i % p.buckets.length, hidx⟩).1 := by
      rw [List.getD_eq_getElem _ _ (by simpa using hidx)]
      simp
    have hget : p.buckets.getD (i % p.buckets.length) zeroPair
        = p.buckets.get ⟨i % p.buckets.length, hidx⟩ := by
      rw [List.getD_eq_getElem _ _ hidx]
      simp
    have hlk := lookup_get_of_nodup p.buckets hnd _ hidx
    have hpn : placeName p i = (p.buckets.get ⟨i % p.buckets.length, hidx⟩).1 := hname
    unfold place
    rw [if_neg (Nat.pos_iff_ne_zero.mp hlen), hpn, hlk, hget]
    simp
  refine ⟨?_, hok, ?_⟩
  · intro he i
    simp [place, he]
  · intro i j hi hj hij
    have hne : p.buckets ≠ [] := List.length_pos.1 (by omega)
    rw [hok hne i, hok hne j, Nat.mod_eq_of_lt hi, Nat.mod_eq_of_lt hj]
    intro hcontra
    have h2 : p.buckets.getD i zeroPair = p.buckets.getD j zeroPair :=
      Except.ok.inj hcontra
    rw [List.getD_eq_getElem _ _ hi, List.getD_eq_getElem _ _ hj] at h2
    have hfst : (p.buckets.map Prod.fst).get ⟨i, by simpa using hi⟩
        = (p.buckets.map Prod.fst).get ⟨j, by simpa using hj⟩ := by
      simp [h2]
    have hij2 := (List.Nodup.get_inj_iff hnd).1 hfst
    exact hij (by simpa using hij2)

/-- Witness for C8 at the concrete two-bucket placer. -/
theorem place_round_robin_witness :
    place pW 5 = .ok (pW.buckets.getD (5 % pW.buckets.length) zeroPair) :=
  (place_round_robin pW (by decide)).2.1 (by decide) 5

/-- C9.  `initRepositories` (cmd/main.go:141) iterates the configuration's
`map[string]BucketConfig` to register buckets, and a Go map's iteration
order is unspecified and randomized between runs.  The two lists below are
permutations of one another — two legitimate iteration sequences of the
same two-bucket configuration map — yet they register the buckets in
different orders, so `place 0` resolves to different buckets in the two
runs.  Placement is therefore not stable across process restarts. -/
theorem bucket_registration_order_unstable :
    [(("alpha" : String), BucketCfg.mk ("phys-alpha") ("s3") ("us-east-1")),
     (("beta" : String), BucketCfg.mk ("phys-beta") ("s3") ("us-east-1"))].Perm
      [(("beta" : String), BucketCfg.mk ("phys-beta") ("s3") ("us-east-1")),
       (("alpha" : String), BucketCfg.mk ("phys-alpha") ("s3") ("us-east-1"))] ∧
    place (initRepositories true
        [(("alpha" : String), BucketCfg.mk ("phys-alpha") ("s3") ("us-east-1")),
         (("beta" : String), BucketCfg.mk ("phys-beta") ("s3") ("us-east-1"))]) 0 ≠
      place (initRepositories true
        [(("beta" : String), BucketCfg.mk ("phys-beta") ("s3") ("us-east-1")),
         (("alpha" : String), BucketCfg.mk ("phys-alpha") ("s3") ("us-east-1"))]) 0 := by
  constructor
  · exact List.Perm.swap _ _ _
  · decide

/-- C4.  `downloadShards` (file_service.go:340-357) verifies the CRC64-ISO
fingerprint of every fetched shard unconditionally — no feature flag gates
the call to `verifyFileIntegrity`.  Here both shards of a two-slot
manifest are fetched successfully, but their bytes do not match the
recorded hashes, so both are rejected and the download fails with the
insufficient-shards error even in the default configuration. -/
theorem integrity_verification_not_gated :
    verifyFileIntegrity [1] ("0000000000000000") = false ∧
    downloadShards pW
        ⟨fun _ => some [1], fun _ => true, fun _ => true⟩
        [⟨("0000000000000000"), ("s3"), ("b1"), ("k0")⟩,
         ⟨("0000000000000000"), ("gcs"), ("b2"), ("k1")⟩] 1
      = (.error .insufficientShards, []) := by
  constructor
  · decide
  · decide

/-- C7.  Encoding rejects `k < 1` and `m < 1` with the encoder's parameter
error (in particular `m = 0` is rejected), and `UploadFile`
(file_service.go:77-80) rejects a zero-length payload with the empty-file
error before anything is written — the latter for every shard
configuration, valid ones included. -/
theorem encode_params_and_empty_payload (rs : RSBackend) (data : List Nat)
    (k m : Nat) (p : RoundRobinPlacer) (env : UploadEnv) (key : String) :
    (k = 0 ∨ m = 0 → ShardFile rs data k m = .error .encodeError) ∧
    UploadFile p env rs key [] k m = ([], .error .emptyFile) := by
  constructor
  · intro hkm
    unfold ShardFile
    rw [if_pos (by omega)]
  · rfl

/-- Witness for C7: encoding with zero parity shards is rejected, and the
upload of an empty payload under the default valid configuration
`k = 4, m = 2` fails with the empty-file error. -/
theorem encode_params_and_empty_payload_witness :
    ShardFile zeroRS [1, 2] 4 0 = .error .encodeError ∧
    UploadFile pW envW zeroRS ("a/b.bin") [] 4 2 = ([], .error .emptyFile) :=
  ⟨(encode_params_and_empty_payload zeroRS [1, 2] 4 0 pW envW ("a/b.bin")).1
      (Or.inr rfl),
   (encode_params_and_empty_payload zeroRS [] 4 2 pW envW ("a/b.bin")).2⟩

/-- `joinShards` only fails with the too-few-shards or short-data errors,
never with the decode error. -/
theorem joinShards_ne_decodeError (shards : List (List Nat)) (k outSize : Nat) :
    joinShards shards k outSize ≠ .error .decodeError := by
  intro h
  unfold joinShards at h
  split_ifs at h <;> simp_all

/-- C6.  `ReconstructFile` (erasure_coding_service.go:49-73) with fewer
than `k = len(shard_slots) - parity_shards` shards present fails with the
insufficient-shards error, and it returns the decode error only when the
field reconstruction of the missing shards itself fails. -/
theorem reconstruct_insufficient_and_decode (rs : RSBackend)
    (shards : List (Option (List Nat))) (meta : ObjectMetadata)
    (hk : 1 ≤ meta.shardHashes.length - meta.parityShards)
    (hm : 1 ≤ meta.parityShards) :
    ((sizedShards meta.shardHashes.length shards).countP (fun o => o.isSome) <
        meta.shardHashes.length - meta.parityShards →
      ReconstructFile rs shards meta = .error .insufficientShards) ∧
    (ReconstructFile rs shards meta = .error .decodeError →
      rs.fieldReconstruct (meta.shardHashes.length - meta.parityShards)
        (sizedShards meta.shardHashes.length shards) = none) := by
  have htot : meta.shardHashes.length - meta.parityShards ≤ meta.shardHashes.length :=
    Nat.sub_le _ _
  constructor
  · intro hpres
    unfold ReconstructFile
    rw [if_neg (by omega), if_neg (by omega), if_pos hpres]
  · intro herr
    unfold ReconstructFile at herr
    rw [if_neg (by omega)] at herr
    by_cases hfull : (sizedShards meta.shardHashes.length shards).countP (fun o => o.isSome)
        = meta.shardHashes.length
    · rw [if_pos hfull] at herr
      exact absurd herr (joinShards_ne_decodeError _ _ _)
    · rw [if_neg hfull] at herr
      by_cases hfew : (sizedShards meta.shardHashes.length shards).countP (fun o => o.isSome)
          < meta.shardHashes.length - meta.parityShards
      · rw [if_pos hfew] at herr
        simp at herr
      · rw [if_neg hfew] at herr
        cases hfr : rs.fieldReconstruct (meta.shardHashes.length - meta.parityShards)
            (sizedShards meta.shardHashes.length shards) with
        | none => rfl
        | some full =>
          rw [hfr] at herr
          exact absurd herr (joinShards_ne_decodeError _ _ _)

/-- Witness for C6 at a three-slot manifest with one parity shard and a
single present shard. -/
theorem reconstruct_insufficient_witness :
    ReconstructFile zeroRS [some [1], none, none]
        ⟨("p"), ("f"), 4, 2, 1,
         [⟨("h0"), ("s3"), ("b1"), ("k0")⟩,
          ⟨("h1"), ("s3"), ("b1"), ("k1")⟩,
          ⟨("h2"), ("s3"), ("b1"), ("k2")⟩]⟩
      = .error .insufficientShards :=
  (reconstruct_insufficient_and_decode zeroRS [some [1], none, none] _
    (by decide) (by decide)).1 (by decide)

/-- `chunksOf` always produces `k` chunks. -/
theorem chunksOf_length (k sz : Nat) (l : List Nat) :
    (chunksOf k sz l).length = k := by
  simp [chunksOf]

/-- Concatenating the `k` chunks of size `sz` recovers the first `k * sz`
bytes. -/
theorem chunksOf_flatten (sz : Nat) (l : List Nat) :
    ∀ k, (chunksOf k sz l).flatten = l.take (k * sz) := by
  intro k
  induction k with
  | zero => simp [chunksOf]
  | succ k ih =>
    have : chunksOf (k + 1) sz l = chunksOf k sz l ++ [((l.drop (k * sz)).take sz)] := by
      simp [chunksOf, List.range_succ]
    rw [this, List.flatten_append, ih]
    simp [Nat.succ_mul, List.take_add]

/-- The padded payload has exactly the requested length when the request
covers the payload. -/
theorem zeroPad_length (data : List Nat) (n : Nat) (h : data.length ≤ n) :
    (zeroPad data n).length = n := by
  simp [zeroPad]
  omega

/-- `k` shards of the ceiling-division size cover the payload. -/
theorem le_mul_perShard (k len : Nat) (hk : 1 ≤ k) :
    len ≤ k * perShardSize k len := by
  unfold perShardSize
  have hdm := Nat.div_add_mod (len + k - 1) k
  have hmlt : (len + k - 1) % k < k := Nat.mod_lt _ (by omega)
  omega

/-- The data chunks of `Split` number exactly `k`. -/
theorem dataChunks_length (data : List Nat) (k : Nat) :
    (dataChunks data k).length = k := chunksOf_length _ _ _

/-- `ShardFile` produces `k + m` shards. -/
theorem rsShards_length (rs : RSBackend) (data : List Nat) (k m : Nat) :
    (rsShards rs data k m).length = k + m := by
  simp [rsShards, dataChunks_length, rs.parityLength]

/-- The manifest seed has one slot per shard. -/
theorem rsMeta_hashes_length (rs : RSBackend) (data : List Nat) (k m : Nat) :
    (rsMeta rs data k m).shardHashes.length = k + m := by
  simp [rsMeta, rsShards_length]

/-- With valid parameters and a non-empty payload, `ShardFile` succeeds
with the manifest seed and the shard list. -/
theorem shardFile_ok (rs : RSBackend) (data : List Nat) (k m : Nat)
    (hk : 1 ≤ k) (hm : 1 ≤ m) (hd : data ≠ []) :
    ShardFile rs data k m = .ok (rsMeta rs data k m, rsShards rs data k m) := by
  unfold ShardFile
  rw [if_neg (by omega), if_neg (by simpa using hd)]

/-- Sizing a sparse shard sequence to its own length changes nothing. -/
theorem sizedShards_of_length (shards : List (Option (List Nat)))
    (h : shards.length = total) : sizedShards total shards = shards := by
  subst h
  simp [sizedShards]

/-- C1.  Round trip: for `k ≥ 1`, `m ≥ 1` and a non-empty payload,
`ShardFile` succeeds, and `ReconstructFile` applied to the full resulting
shard set under the produced manifest returns exactly the payload — the
reconstruction is trimmed to `original_size`. -/
theorem shard_reconstruct_round_trip (rs : RSBackend) (data : List Nat) (k m : Nat)
    (hk : 1 ≤ k) (hm : 1 ≤ m) (hd : data ≠ []) :
    ShardFile rs data k m = .ok (rsMeta rs data k m, rsShards rs data k m) ∧
    ReconstructFile rs ((rsShards rs data k m).map some) (rsMeta rs data k m)
      = .ok data := by
  refine ⟨shardFile_ok rs data k m hk hm hd, ?_⟩
  have hlen := rsShards_length rs data k m
  have hmlen := rsMeta_hashes_length rs data k m
  have hsz : sizedShards (rsMeta rs data k m).shardHashes.length
      ((rsShards rs data k m).map some) = (rsShards rs data k m).map some :=
    sizedShards_of_length _ (by simp [hlen, hmlen])
  have hpm : (rsMeta rs data k m).parityShards = m := rfl
  have hcnt : ((rsShards rs data k m).map some).countP (fun o => o.isSome)
      = (rsMeta rs data k m).shardHashes.length := by
    rw [hmlen]
    rw [show ((rsShards rs data k m).map some).countP (fun o => o.isSome)
        = ((rsShards rs data k m).map some).length from
      List.countP_eq_length.2 (by simp)]
    simp [hlen]
  unfold ReconstructFile
  rw [if_neg (by rw [hmlen, hpm]; omega)]
  rw [hsz, if_pos hcnt]
  have hmap : ((rsShards rs data k m).map some).map (fun o => o.getD []) =
      rsShards rs data k m := by
    have hfun : ((fun (o : Option (List Nat)) => o.getD []) ∘ some)
        = fun (s : List Nat) => s := by
      funext s
      rfl
    rw [List.map_map, hfun, List.map_id']
  rw [hmap, hmlen, hpm]
  have hkk : k + m - m = k := by omega
  rw [hkk]
  unfold joinShards
  rw [if_neg (by omega)]
  have htake : (rsShards rs data k m).take k = dataChunks data k := by
    unfold rsShards
    exact List.take_left' (dataChunks_length data k)
  rw [htake]
  have hcov : data.length ≤ k * perShardSize k data.length :=
    le_mul_perShard k data.length hk
  have hflat : (dataChunks data k).flatten
      = zeroPad data (k * perShardSize k data.length) := by
    unfold dataChunks
    rw [chunksOf_flatten]
    exact List.take_of_length_le (by rw [zeroPad_length _ _ hcov])
  rw [hflat]
  have hplen : (zeroPad data (k * perShardSize k data.length)).length
      = k * perShardSize k data.length := zeroPad_length _ _ hcov
  have hos : (rsMeta rs data k m).originalSize = data.length := rfl
  rw [hos, if_neg (by omega)]
  unfold zeroPad
  rw [show data.length = (data).length from rfl, List.take_left]

/-- Witness for C1 at `k = 2`, `m = 1`, payload `[1, 2, 3]`. -/
theorem shard_reconstruct_round_trip_witness :
    ShardFile zeroRS [1, 2, 3] 2 1 = .ok (rsMeta zeroRS [1, 2, 3] 2 1, rsShards zeroRS [1, 2, 3] 2 1) ∧
    ReconstructFile zeroRS ((rsShards zeroRS [1, 2, 3] 2 1).map some)
        (rsMeta zeroRS [1, 2, 3] 2 1) = .ok [1, 2, 3] :=
  shard_reconstruct_round_trip zeroRS [1, 2, 3] 2 1 (by decide) (by decide) (by decide)

/-- With valid parameters and a non-empty payload, `UploadFile` reduces to
the shard fan-out on `rsShards` followed by the manifest write. -/
theorem uploadFile_eq (p : RoundRobinPlacer) (env : UploadEnv) (rs : RSBackend)
    (key : String) (data : List Nat) (k m : Nat)
    (hk : 1 ≤ k) (hm : 1 ≤ m) (hd : data ≠ []) :
    UploadFile p env rs key data k m =
      match uploadShards p env key (rsShards rs data k m)
          (stampName (rsMeta rs data k m) key) m with
      | .error e => (cleanupEvents p env key, .error e)
      | .ok meta2 =>
        (cleanupEvents p env key ++ [Event.createMeta meta2],
         if env.createOk then .ok () else .error .createMetadataFailed) := by
  unfold UploadFile
  rw [if_neg (by simpa using hd), shardFile_ok rs data k m hk hm hd]

/-- A saturated first error is sticky in the drain loop. -/
theorem drainLoop_some_fixed (parity : Nat) (f : ZErr) :
    ∀ errs c, drainLoop errs c (some f) parity = some f := by
  intro errs
  induction errs with
  | nil => intro c; rfl
  | cons e rest ih =>
    intro c
    show (if parity < c + 1 then some ((some f).getD e)
      else drainLoop rest (c + 1) (some ((some f).getD e)) parity) = some f
    split_ifs <;> simp [ih]

/-- The drain loop returns the first error of a non-empty error channel. -/
theorem drainLoop_cons (parity : Nat) (e : ZErr) (rest : List ZErr) :
    drainLoop (e :: rest) 0 none parity = some e := by
  show (if parity < 0 + 1 then some ((none : Option ZErr).getD e)
    else drainLoop rest (0 + 1) (some ((none : Option ZErr).getD e)) parity) = some e
  split_ifs <;> simp [drainLoop_some_fixed]

/-- `uploadShards` with a non-empty error channel returns the first
captured error. -/
theorem uploadShards_first_error (p : RoundRobinPlacer) (env : UploadEnv)
    (key : String) (shards : List (List Nat)) (meta : ObjectMetadata)
    (parity : Nat) (e : ZErr) (rest : List ZErr)
    (h : uploadErrs p env key meta shards.length = e :: rest) :
    uploadShards p env key shards meta parity = .error e := by
  unfold uploadShards
  rw [h, drainLoop_cons]

/-- `uploadShards` with an empty error channel stamps the manifest. -/
theorem uploadShards_ok (p : RoundRobinPlacer) (env : UploadEnv)
    (key : String) (shards : List (List Nat)) (meta : ObjectMetadata)
    (parity : Nat) (h : uploadErrs p env key meta shards.length = []) :
    uploadShards p env key shards meta parity
      = .ok (applyPaths meta (uploadPaths p env key meta shards.length)) := by
  unfold uploadShards
  rw [h]
  rfl

/-- A shard whose driver upload fails makes its goroutine report an
error. -/
theorem shardAttempt_error_of_failed (p : RoundRobinPlacer) (env : UploadEnv)
    (key : String) (meta : ObjectMetadata) (i : Nat)
    (h : env.uploadOk i = false) :
    ∃ e, shardAttempt p env key meta i = .error e := by
  unfold shardAttempt
  cases hpl : place p i with
  | error e => exact ⟨e, rfl⟩
  | ok v =>
    refine ⟨env.uploadErrOf i, ?_⟩
    simp [h]

/-- An error reported by a scheduled shard appears in the error channel. -/
theorem mem_uploadErrs (p : RoundRobinPlacer) (env : UploadEnv) (key : String)
    (meta : ObjectMetadata) (n i : Nat) (e : ZErr)
    (hi : i ∈ env.comp) (hin : i < n)
    (he : shardAttempt p env key meta i = .error e) :
    e ∈ uploadErrs p env key meta n := by
  unfold uploadErrs uploadResults
  refine List.mem_filterMap.2 ⟨.error e, ?_, rfl⟩
  exact List.mem_filterMap.2 ⟨i, hi, by simp [hin, he]⟩

/-- The cleanup pass emits no manifest write. -/
theorem cleanupEvents_no_createMeta (p : RoundRobinPlacer) (env : UploadEnv)
    (key : String) (m2 : ObjectMetadata) :
    Event.createMeta m2 ∉ cleanupEvents p env key := by
  intro h
  obtain ⟨b, _, hmatch⟩ := List.mem_filterMap.1 h
  revert hmatch
  cases getRepositoryForBucket p b <;> simp

/-- C2.  If at least one shard upload fails — even with at most `m`
failures and other shards succeeding — `UploadFile` returns the first
captured shard-upload error (the head of the error channel in completion
order) and never writes the manifest. -/
theorem upload_aborts_on_any_shard_failure (p : RoundRobinPlacer)
    (env : UploadEnv) (rs : RSBackend) (key : String) (data : List Nat)
    (k m : Nat) (hk : 1 ≤ k) (hm : 1 ≤ m) (hd : data ≠ [])
    (hcomp : env.comp.Perm (List.range (k + m)))
    (hfail : ∃ i, i < k + m ∧ env.uploadOk i = false) :
    uploadErrs p env key (stampName (rsMeta rs data k m) key) (k + m) ≠ [] ∧
    (UploadFile p env rs key data k m).2 = .error
      ((uploadErrs p env key (stampName (rsMeta rs data k m) key) (k + m)).headD
        .encodeError) ∧
    (∀ m2, Event.createMeta m2 ∉ (UploadFile p env rs key data k m).1) := by
  obtain ⟨i, hin, hbad⟩ := hfail
  obtain ⟨e, he⟩ := shardAttempt_error_of_failed p env key
    (stampName (rsMeta rs data k m) key) i hbad
  have hicomp : i ∈ env.comp := hcomp.mem_iff.2 (List.mem_range.2 hin)
  have hmem : e ∈ uploadErrs p env key (stampName (rsMeta rs data k m) key) (k + m) :=
    mem_uploadErrs p env key _ (k + m) i e hicomp hin he
  cases herrs : uploadErrs p env key (stampName (rsMeta rs data k m) key) (k + m) with
  | nil =>
    rw [herrs] at hmem
    simp at hmem
  | cons e0 rest =>
    have hup : uploadShards p env key (rsShards rs data k m)
        (stampName (rsMeta rs data k m) key) m = .error e0 := by
      apply uploadShards_first_error
      rw [rsShards_length]
      exact herrs
    rw [uploadFile_eq p env rs key data k m hk hm hd, hup]
    refine ⟨by simp [herrs], by simp, ?_⟩
    intro m2
    exact cleanupEvents_no_createMeta p env key m2

/-- Witness for C2: shard 1 of three fails; the upload returns that error
and the trace holds no manifest write. -/
theorem upload_aborts_witness :
    uploadErrs pW envFailW ("a/b.bin")
        (stampName (rsMeta zeroRS [1, 2, 3] 2 1) ("a/b.bin")) (2 + 1) ≠ [] ∧
    (UploadFile pW envFailW zeroRS ("a/b.bin") [1, 2, 3] 2 1).2 = .error
      ((uploadErrs pW envFailW ("a/b.bin")
          (stampName (rsMeta zeroRS [1, 2, 3] 2 1) ("a/b.bin")) (2 + 1)).headD
        .encodeError) ∧
    (∀ m2, Event.createMeta m2 ∉ (UploadFile pW envFailW zeroRS ("a/b.bin") [1, 2, 3] 2 1).1) :=
  upload_aborts_on_any_shard_failure pW envFailW zeroRS ("a/b.bin") [1, 2, 3] 2 1
    (by decide) (by decide) (by decide) (by decide) ⟨1, by decide, by decide⟩

/-- A key that occurs in an association list is found by `lookup`. -/
theorem lookup_isSome_of_mem_keys (l : List (String × Repo)) (b : String)
    (h : b ∈ l.map Prod.fst) : (l.lookup b).isSome := by
  induction l with
  | nil => simp at h
  | cons a t ih =>
    simp only [List.map_cons, List.mem_cons] at h
    rcases h with h1 | h2
    · simp [List.lookup, h1]
    · by_cases hba : (b == a.1)
      · simp [List.lookup, hba]
      · simpa [List.lookup, hba] using ih h2

/-- Every registered bucket receives its cleanup call. -/
theorem mem_cleanupEvents (p : RoundRobinPlacer) (env : UploadEnv)
    (key : String) (b : String) (hb : b ∈ listBuckets p) :
    Event.cleanupCall b key (env.cleanupFails b) ∈ cleanupEvents p env key := by
  have hsome := lookup_isSome_of_mem_keys p.buckets b hb
  refine List.mem_filterMap.2 ⟨b, hb, ?_⟩
  unfold getRepositoryForBucket
  cases hlk : p.buckets.lookup b with
  | none => rw [hlk] at hsome; simp at hsome
  | some r => simp

/-- C10.  Before any shard is uploaded, `UploadFile` calls
`DeletePrefix(object_key)` on every registered bucket, and the answers of
this cleanup pass are discarded: the call's result is the same whatever
the per-bucket cleanup outcomes are, so a fresh upload proceeds to the
shard fan-out and can succeed despite cleanup failures. -/
theorem cleanup_best_effort (p : RoundRobinPlacer) (env : UploadEnv)
    (rs : RSBackend) (key : String) (data : List Nat) (k m : Nat)
    (hk : 1 ≤ k) (hm : 1 ≤ m) (hd : data ≠ []) :
    (∀ b ∈ listBuckets p,
       Event.cleanupCall b key (env.cleanupFails b)
         ∈ (UploadFile p env rs key data k m).1) ∧
    (∀ g : String → Bool,
       (UploadFile p { env with cleanupFails := g } rs key data k m).2
         = (UploadFile p env rs key data k m).2) := by
  constructor
  · intro b hb
    rw [uploadFile_eq p env rs key data k m hk hm hd]
    cases uploadShards p env key (rsShards rs data k m)
        (stampName (rsMeta rs data k m) key) m with
    | error e => exact mem_cleanupEvents p env key b hb
    | ok meta2 => exact List.mem_append_left _ (mem_cleanupEvents p env key b hb)
  · intro g
    rw [uploadFile_eq p { env with cleanupFails := g } rs key data k m hk hm hd,
        uploadFile_eq p env rs key data k m hk hm hd]
    have hsame : uploadShards p { env with cleanupFails := g } key
        (rsShards rs data k m) (stampName (rsMeta rs data k m) key) m
        = uploadShards p env key (rsShards rs data k m)
            (stampName (rsMeta rs data k m) key) m := rfl
    rw [hsame]
    cases uploadShards p env key (rsShards rs data k m)
        (stampName (rsMeta rs data k m) key) m with
    | error e => rfl
    | ok meta2 => rfl

/-- Witness for C10: with every cleanup call failing, the cleanup events
for both registered buckets are in the trace, the result is unchanged, and
the upload succeeds. -/
theorem cleanup_best_effort_witness :
    Event.cleanupCall ("b1") ("a/b.bin") (envW.cleanupFails ("b1"))
      ∈ (UploadFile pW envW zeroRS ("a/b.bin") [1, 2, 3] 2 1).1 ∧
    (UploadFile pW { envW with cleanupFails := fun _ => false } zeroRS ("a/b.bin")
        [1, 2, 3] 2 1).2
      = (UploadFile pW envW zeroRS ("a/b.bin") [1, 2, 3] 2 1).2 ∧
    (UploadFile pW envW zeroRS ("a/b.bin") [1, 2, 3] 2 1).2 = .ok () :=
  ⟨(cleanup_best_effort pW envW zeroRS ("a/b.bin") [1, 2, 3] 2 1
      (by decide) (by decide) (by decide)).1 ("b1") (by decide),
   (cleanup_best_effort pW envW zeroRS ("a/b.bin") [1, 2, 3] 2 1
      (by decide) (by decide) (by decide)).2 (fun _ => false),
   by decide⟩

/-- One loop iteration either books a verified shard or counts a
failure. -/
theorem processShard_eq (p : RoundRobinPlacer) (env : DlEnv) (i : Nat)
    (slot : ShardStorage) (st : DlState) :
    processShard p env i slot st =
      if shardVerifies p env i slot then
        { st with files := st.files.set i (some ((env.download i).getD [])),
                  live := i :: st.live, successful := st.successful + 1 }
      else { st with failed := st.failed + 1 } := by
  unfold processShard shardVerifies
  cases h1 : getRepositoryForBucket p slot.bucketName with
  | error e => simp [Except.isOk, Except.toBool]
  | ok r =>
    cases h2 : env.download i with
    | none => simp [Except.isOk, Except.toBool]
    | some bytes =>
      by_cases h3 : env.tempOk i <;> by_cases h4 : env.writeOk i <;>
        by_cases h5 : verifyFileIntegrity bytes slot.hash <;>
        simp [Except.isOk, Except.toBool, h3, h4, h5]

/-- Setting a slot then reading it back yields the written value. -/
theorem getD_set_self (l : List (Option (List Nat))) (i : Nat)
    (a : Option (List Nat)) (h : i < l.length) :
    (l.set i a).getD i none = a := by
  rw [List.getD_eq_getElem _ _ (by simpa using h)]
  simp

/-- Setting a slot leaves the other slots unchanged. -/
theorem getD_set_ne (l : List (Option (List Nat))) (i j : Nat)
    (a : Option (List Nat)) (h : j ≠ i) :
    (l.set i a).getD j none = l.getD j none := by
  rcases Nat.lt_or_ge j l.length with hlt | hge
  · rw [List.getD_eq_getElem _ _ (by simpa using hlt),
      List.getD_eq_getElem _ _ hlt, List.getElem_set]
    rw [if_neg (by omega)]
  · rw [List.getD_eq_default _ _ (by simpa using hge),
      List.getD_eq_default _ _ hge]

/-- Loop invariant: every temp file recorded as on disk has its slot set
in `shardFiles`, and the slot array keeps its length. -/
theorem dlGo_live_files (p : RoundRobinPlacer) (env : DlEnv)
    (minNeeded parity n : Nat) :
    ∀ rest i st, st.files.length = n → i + rest.length = n →
      (∀ j ∈ st.live, (st.files.getD j none).isSome) →
      ((dlGo p env minNeeded parity i rest st).files.length = n ∧
       ∀ j ∈ (dlGo p env minNeeded parity i rest st).live,
         ((dlGo p env minNeeded parity i rest st).files.getD j none).isSome) := by
  intro rest
  induction rest with
  | nil => intro i st h1 h2 h3; exact ⟨h1, h3⟩
  | cons slot rest ih =>
    intro i st h1 h2 h3
    unfold dlGo
    by_cases hs : minNeeded ≤ st.successful
    · rw [if_pos hs]; exact ⟨h1, h3⟩
    · rw [if_neg hs]
      by_cases hf : parity < st.failed
      · rw [if_pos hf]; exact ⟨h1, h3⟩
      · rw [if_neg hf]
        rw [processShard_eq]
        simp only [List.length_cons] at h2
        by_cases hv : shardVerifies p env i slot
        · rw [if_pos hv]
          apply ih (i + 1)
          · show (st.files.set i (some ((env.download i).getD []))).length = n
            rw [List.length_set]
            exact h1
          · omega
          · intro j hj
            show ((st.files.set i (some ((env.download i).getD []))).getD j none).isSome
            rcases List.mem_cons.1 hj with hji | hjt
            · subst hji
              rw [getD_set_self _ _ _ (by omega)]
              simp
            · by_cases hji2 : j = i
              · subst hji2
                rw [getD_set_self _ _ _ (by omega)]
                simp
              · rw [getD_set_ne _ _ _ _ hji2]
                exact h3 j hjt
        · rw [if_neg hv]
          apply ih (i + 1)
          · exact h1
          · omega
          · intro j hj
            exact h3 j hj

/-- The number of shards an environment lets verify is at most the number
of slots. -/
theorem goodCount_le (p : RoundRobinPlacer) (env : DlEnv) :
    ∀ slots i, goodCount p env i slots ≤ slots.length := by
  intro slots
  induction slots with
  | nil => intro i; simp [goodCount]
  | cons slot rest ih =>
    intro i
    have hih := ih (i + 1)
    show (if shardVerifies p env i slot then 1 else 0) + goodCount p env (i + 1) rest
        ≤ (slot :: rest).length
    simp only [List.length_cons]
    split_ifs <;> omega

/-- The loop never books more successes than the environment offers. -/
theorem dlGo_successful_le (p : RoundRobinPlacer) (env : DlEnv)
    (minNeeded parity : Nat) :
    ∀ rest i st, (dlGo p env minNeeded parity i rest st).successful
      ≤ st.successful + goodCount p env i rest := by
  intro rest
  induction rest with
  | nil => intro i st; simp [dlGo, goodCount]
  | cons slot rest ih =>
    intro i st
    have hgc : goodCount p env i (slot :: rest)
        = (if shardVerifies p env i slot then 1 else 0)
          + goodCount p env (i + 1) rest := rfl
    unfold dlGo
    by_cases hs : minNeeded ≤ st.successful
    · rw [if_pos hs, hgc]
      split_ifs <;> omega
    · rw [if_neg hs]
      by_cases hf : parity < st.failed
      · rw [if_pos hf, hgc]
        split_ifs <;> omega
      · rw [if_neg hf, processShard_eq]
        by_cases hv : shardVerifies p env i slot
        · rw [if_pos hv, hgc, if_pos hv]
          have hih : (dlGo p env minNeeded parity (i + 1) rest
              { st with files := st.files.set i (some ((env.download i).getD [])),
                        live := i :: st.live,
                        successful := st.successful + 1 }).successful
              ≤ st.successful + 1 + goodCount p env (i + 1) rest :=
            ih (i + 1) _
          omega
        · rw [if_neg hv, hgc, if_neg hv]
          have hih : (dlGo p env minNeeded parity (i + 1) rest
              { st with failed := st.failed + 1 }).successful
              ≤ st.successful + goodCount p env (i + 1) rest :=
            ih (i + 1) _
          omega

/-- If the environment offers enough verifiable shards and the failure
budget is not already blown, the loop books at least `minNeeded`
successes. -/
theorem dlGo_reaches (p : RoundRobinPlacer) (env : DlEnv)
    (minNeeded parity : Nat) :
    ∀ rest i st,
      st.failed + (rest.length - goodCount p env i rest) ≤ parity →
      minNeeded ≤ st.successful + goodCount p env i rest →
      minNeeded ≤ (dlGo p env minNeeded parity i rest st).successful := by
  intro rest
  induction rest with
  | nil =>
    intro i st h1 h2
    have hg : goodCount p env i [] = 0 := rfl
    rw [hg] at h2
    simpa [dlGo] using h2
  | cons slot rest ih =>
    intro i st h1 h2
    have hgle := goodCount_le p env rest (i + 1)
    have hgc : goodCount p env i (slot :: rest)
        = (if shardVerifies p env i slot then 1 else 0)
          + goodCount p env (i + 1) rest := rfl
    rw [hgc] at h1 h2
    simp only [List.length_cons] at h1
    unfold dlGo
    by_cases hs : minNeeded ≤ st.successful
    · rw [if_pos hs]; exact hs
    · rw [if_neg hs]
      rw [if_neg (by split_ifs at h1 <;> omega)]
      rw [processShard_eq]
      by_cases hv : shardVerifies p env i slot
      · rw [if_pos hv]
        rw [if_pos hv] at h1 h2
        apply ih (i + 1)
        · show st.failed + (rest.length - goodCount p env (i + 1) rest) ≤ parity
          omega
        · show minNeeded ≤ st.successful + 1 + goodCount p env (i + 1) rest
          omega
      · rw [if_neg hv]
        rw [if_neg hv] at h1 h2
        apply ih (i + 1)
        · show st.failed + 1 + (rest.length - goodCount p env (i + 1) rest) ≤ parity
          omega
        · show minNeeded ≤ st.successful + goodCount p env (i + 1) rest
          omega

/-- C5.  Whenever fewer than `k = len(slots) - parity` shards end up
verified, `downloadShards` fails with the insufficient-shards error and
every temp file created during the attempt has been removed; `k`
verifiable shards guarantee success and `k - 1` (or fewer) guarantee the
insufficient-shards failure. -/
theorem download_insufficient_cleanup_thresholds (p : RoundRobinPlacer)
    (env : DlEnv) (slots : List ShardStorage) (parity : Nat) :
    (∀ e, (downloadShards p env slots parity).1 = .error e →
       e = .insufficientShards ∧ (downloadShards p env slots parity).2 = []) ∧
    (slots.length - parity ≤ goodCount p env 0 slots →
       (downloadShards p env slots parity).1.isOk = true) ∧
    (goodCount p env 0 slots < slots.length - parity →
       (downloadShards p env slots parity).1 = .error .insufficientShards) := by
  have hfin : dlFinal p env slots parity
      = dlGo p env (slots.length - parity) parity 0 slots (dlInit slots.length) := rfl
  have hinv := dlGo_live_files p env (slots.length - parity) parity slots.length
    slots 0 (dlInit slots.length) (by simp [dlInit]) (by simp) (by simp [dlInit])
  rw [← hfin] at hinv
  refine ⟨?_, ?_, ?_⟩
  · intro e he
    unfold downloadShards at he
    by_cases hlt : (dlFinal p env slots parity).successful < slots.length - parity
    · rw [if_pos hlt] at he
      have he2 : e = .insufficientShards := by
        simp at he
        exact he.symm
      refine ⟨he2, ?_⟩
      unfold downloadShards
      rw [if_pos hlt]
      show List.filter _ (dlFinal p env slots parity).live = []
      apply List.filter_eq_nil_iff.2
      intro a ha
      have hsome := hinv.2 a ha
      rw [List.getD_eq_getElem?_getD] at hsome
      simp only [decide_eq_true_eq]
      intro hcon
      rw [Option.isSome_iff_ne_none] at hsome
      exact hsome (by simpa using hcon)
    · rw [if_neg hlt] at he
      exact absurd he (by simp)
  · intro hgood
    have hle := goodCount_le p env slots 0
    have hreach := dlGo_reaches p env (slots.length - parity) parity slots 0
      (dlInit slots.length)
      (by show 0 + (slots.length - goodCount p env 0 slots) ≤ parity; omega)
      (by show slots.length - parity ≤ 0 + goodCount p env 0 slots; omega)
    rw [← hfin] at hreach
    unfold downloadShards
    rw [if_neg (by omega)]
    rfl
  · intro hbad
    have hle := dlGo_successful_le p env (slots.length - parity) parity slots 0
      (dlInit slots.length)
    rw [← hfin] at hle
    have hle2 : (dlFinal p env slots parity).successful
        ≤ 0 + goodCount p env 0 slots := hle
    unfold downloadShards
    rw [if_pos (by omega)]

/-- Witness for C5 at a two-slot manifest with one parity shard: one
verifiable shard (`k = 1`) suffices, and with no verifiable shard
(`k - 1 = 0`) the call fails with the insufficient-shards error. -/
theorem download_thresholds_witness :
    ((1 : Nat) ≤ goodCount pW
        ⟨fun i => some [9 + i], fun _ => true, fun _ => true⟩ 0
        [⟨hex16 (crc64 [9]), ("s3"), ("b1"), ("k0")⟩,
         ⟨("ffffffffffffffff"), ("gcs"), ("b2"), ("k1")⟩] ∧
      (downloadShards pW ⟨fun i => some [9 + i], fun _ => true, fun _ => true⟩
        [⟨hex16 (crc64 [9]), ("s3"), ("b1"), ("k0")⟩,
         ⟨("ffffffffffffffff"), ("gcs"), ("b2"), ("k1")⟩] 1).1.isOk = true) ∧
    (goodCount pW ⟨fun _ => none, fun _ => true, fun _ => true⟩ 0
        [⟨hex16 (crc64 [9]), ("s3"), ("b1"), ("k0")⟩,
         ⟨("ffffffffffffffff"), ("gcs"), ("b2"), ("k1")⟩] < 1 ∧
      (downloadShards pW ⟨fun _ => none, fun _ => true, fun _ => true⟩
        [⟨hex16 (crc64 [9]), ("s3"), ("b1"), ("k0")⟩,
         ⟨("ffffffffffffffff"), ("gcs"), ("b2"), ("k1")⟩] 1).1
        = .error .insufficientShards) :=
  ⟨⟨by decide,
    (download_insufficient_cleanup_thresholds pW
      ⟨fun i => some [9 + i], fun _ => true, fun _ => true⟩
      [⟨hex16 (crc64 [9]), ("s3"), ("b1"), ("k0")⟩,
       ⟨("ffffffffffffffff"), ("gcs"), ("b2"), ("k1")⟩] 1).2.1 (by decide)⟩,
   ⟨by decide,
    (download_insufficient_cleanup_thresholds pW
      ⟨fun _ => none, fun _ => true, fun _ => true⟩
      [⟨hex16 (crc64 [9]), ("s3"), ("b1"), ("k0")⟩,
       ⟨("ffffffffffffffff"), ("gcs"), ("b2"), ("k1")⟩] 1).2.2 (by decide)⟩⟩

/-- The driver `Place` pairs with the chosen bucket name (the map lookup
of round_robin.go:64). -/
def placeRepo (p : RoundRobinPlacer) (i : Nat) : Repo :=
  (p.buckets.lookup (placeName p i)).getD ⟨.s3, ""⟩

/-- Generic form of `getD_set_self` for any element type. -/
theorem getD_set_eq_of_lt {α : Type} (l : List α) (i : Nat) (a d : α)
    (h : i < l.length) : (l.set i a).getD i d = a := by
  rw [List.getD_eq_getElem _ _ (by simpa using h)]
  simp

/-- Generic form of `getD_set_ne` for any element type. -/
theorem getD_set_ne_of_ne {α : Type} (l : List α) (i j : Nat) (a d : α)
    (h : j ≠ i) : (l.set i a).getD j d = l.getD j d := by
  rcases Nat.lt_or_ge j l.length with hlt | hge
  · rw [List.getD_eq_getElem _ _ (by simpa using hlt),
      List.getD_eq_getElem _ _ hlt, List.getElem_set]
    rw [if_neg (by omega)]
  · rw [List.getD_eq_default _ _ (by simpa using hge),
      List.getD_eq_default _ _ hge]

/-- Reading a mapped list at an in-range position maps the original
entry. -/
theorem getD_map_of_lt {α β : Type} (l : List α) (f : α → β) (i : Nat)
    (d : β) (d2 : α) (h : i < l.length) :
    (l.map f).getD i d = f (l.getD i d2) := by
  rw [List.getD_eq_getElem _ _ (by simpa using h),
    List.getD_eq_getElem _ _ h]
  simp

/-- `dropWhile` jumps over a block that satisfies the predicate
throughout. -/
theorem dropWhile_append_of_all {α : Type} (q : α → Bool) (l1 l2 : List α)
    (h : ∀ c ∈ l1, q c = true) :
    (l1 ++ l2).dropWhile q = l2.dropWhile q := by
  induction l1 with
  | nil => rfl
  | cons a t ih =>
    have ha : q a = true := h a (List.mem_cons_self a t)
    simp only [List.cons_append, List.dropWhile_cons, ha, if_true]
    exact ih (fun c hc => h c (List.mem_cons_of_mem a hc))

/-- `strings.SplitN(path, "/", 2)[1]` on a driver path whose bucket part
is slash free recovers the storage key after the bucket. -/
theorem splitFirstSlash_snd (phys rest : String)
    (h : ∀ c ∈ phys.data, c ≠ '/') :
    (splitFirstSlash (phys ++ "/" ++ rest)).2 = rest := by
  unfold splitFirstSlash
  have hdata : (phys ++ "/" ++ rest).data = phys.data ++ '/' :: rest.data := by
    simp
  rw [hdata]
  rw [dropWhile_append_of_all _ _ _ (by intro c hc; simpa using h c hc)]
  rw [List.dropWhile_cons]
  simp only [decide_eq_true_eq]
  rw [if_neg (by simp)]
  show String.mk (('/' :: rest.data).drop 1) = rest
  cases rest
  rfl

/-- A successful lookup names an entry of the list. -/
theorem lookup_mem_of_eq_some (l : List (String × Repo)) (b : String)
    (r : Repo) (h : l.lookup b = some r) : (b, r) ∈ l := by
  induction l with
  | nil => simp [List.lookup] at h
  | cons a t ih =>
    by_cases hba : (b == a.1)
    · have hb : b = a.1 := by simpa using hba
      rw [List.lookup, hba] at h
      have hr : a.2 = r := by simpa using h
      rw [hb, ← hr]
      exact List.mem_cons_self _ _
    · rw [List.lookup] at h
      rw [Bool.of_not_eq_true hba] at h
      exact List.mem_cons_of_mem _ (ih h)

/-- The chosen bucket name is one of the registered names. -/
theorem placeName_mem (p : RoundRobinPlacer) (i : Nat)
    (hne : p.buckets ≠ []) : placeName p i ∈ p.buckets.map Prod.fst := by
  have hlen : 0 < p.buckets.length := List.length_pos.2 hne
  have hidx : i % p.buckets.length < p.buckets.length := Nat.mod_lt _ hlen
  unfold placeName
  rw [List.getD_eq_getElem _ _ (by simpa using hidx)]
  exact List.getElem_mem _

/-- The pair `Place` returns is a registered entry. -/
theorem placeRepo_mem (p : RoundRobinPlacer) (i : Nat)
    (hne : p.buckets ≠ []) : (placeName p i, placeRepo p i) ∈ p.buckets := by
  have hsome := lookup_isSome_of_mem_keys p.buckets _ (placeName_mem p i hne)
  unfold placeRepo
  cases hlk : p.buckets.lookup (placeName p i) with
  | none => rw [hlk] at hsome; simp at hsome
  | some r =>
    simpa using lookup_mem_of_eq_some p.buckets _ r hlk

/-- A shard goroutine whose driver upload succeeds reports the resolved
storage triple: its index, the driver's backend kind, the placed bucket
name, and the part of the driver's returned path after the first
separator. -/
theorem shardAttempt_ok_eq (p : RoundRobinPlacer) (env : UploadEnv)
    (key : String) (meta : ObjectMetadata) (i : Nat)
    (hne : ¬ p.buckets.length = 0) (hok : env.uploadOk i = true) :
    shardAttempt p env key meta i = .ok (i, (placeRepo p i).kind.storageType,
      placeName p i,
      (splitFirstSlash ((placeRepo p i).physName ++ "/"
        ++ (key ++ "/" ++ (meta.shardHashes.getD i default).hash))).2) := by
  unfold shardAttempt place placeRepo
  rw [if_neg hne]
  simp [hok]

/-- The storage triple a successful shard goroutine reports for shard
`i`. -/
def okVal (p : RoundRobinPlacer) (key : String) (meta : ObjectMetadata)
    (i : Nat) : Nat × String × String × String :=
  (i, (placeRepo p i).kind.storageType, placeName p i,
   (splitFirstSlash ((placeRepo p i).physName ++ "/"
     ++ (key ++ "/" ++ (meta.shardHashes.getD i default).hash))).2)

/-- When every scheduled shard upload succeeds, `pathCh` holds exactly the
storage triples of the scheduled shards in completion order. -/
theorem uploadPaths_eq_map (p : RoundRobinPlacer) (env : UploadEnv)
    (key : String) (meta : ObjectMetadata) (n : Nat)
    (hne : ¬ p.buckets.length = 0)
    (hall : ∀ i, i < n → env.uploadOk i = true) :
    uploadPaths p env key meta n
      = (env.comp.filter (fun i => decide (i < n))).map (okVal p key meta) := by
  unfold uploadPaths uploadResults
  generalize env.comp = l
  induction l with
  | nil => rfl
  | cons i rest ih =>
    by_cases hin : i < n
    · rw [List.filterMap_cons, if_pos hin,
        shardAttempt_ok_eq p env key meta i hne (hall i hin),
        List.filterMap_cons]
      simp only [List.filter_cons]
      rw [if_pos (by simp [hin]), List.map_cons, ih]
      rfl
    · rw [List.filterMap_cons, if_neg hin]
      simp only [List.filter_cons]
      rw [if_neg (by simp [hin]), ih]

/-- Stamping slots never changes the number of slots. -/
theorem applyPaths_length (paths : List (Nat × String × String × String)) :
    ∀ meta, (applyPaths meta paths).shardHashes.length
      = meta.shardHashes.length := by
  induction paths with
  | nil => intro meta; rfl
  | cons v rest ih =>
    intro meta
    show (applyPaths (setSlot meta v.1 v.2.1 v.2.2.1 v.2.2.2) rest).shardHashes.length = _
    rw [ih]
    simp [setSlot]

/-- Slots whose index is never reported stay untouched. -/
theorem applyPaths_getD_of_not_mem (paths : List (Nat × String × String × String))
    (i : Nat) :
    ∀ meta, i ∉ paths.map (fun v => v.1) →
      (applyPaths meta paths).shardHashes.getD i default
        = meta.shardHashes.getD i default := by
  induction paths with
  | nil => intro meta _; rfl
  | cons v rest ih =>
    intro meta hmem
    simp only [List.map_cons, List.mem_cons] at hmem
    push_neg at hmem
    show (applyPaths (setSlot meta v.1 v.2.1 v.2.2.1 v.2.2.2) rest).shardHashes.getD i default = _
    rw [ih _ hmem.2]
    unfold setSlot
    show ((meta.shardHashes.set v.1 _).getD i default) = _
    rw [getD_set_ne_of_ne _ _ _ _ _ hmem.1]

/-- A slot reported exactly once ends up stamped with its reported triple,
its hash preserved. -/
theorem applyPaths_getD_of_mem (paths : List (Nat × String × String × String))
    (i : Nat) (st bn kk : String) :
    ∀ meta, (paths.map (fun v => v.1)).Nodup → (i, st, bn, kk) ∈ paths →
      i < meta.shardHashes.length →
      (applyPaths meta paths).shardHashes.getD i default
        = { meta.shardHashes.getD i default with
              storageType := st, bucketName := bn, key := kk } := by
  induction paths with
  | nil => intro meta _ habs _; simp at habs
  | cons v rest ih =>
    intro meta hnd hmem hi
    simp only [List.map_cons, List.nodup_cons] at hnd
    show (applyPaths (setSlot meta v.1 v.2.1 v.2.2.1 v.2.2.2) rest).shardHashes.getD i default = _
    rcases List.mem_cons.1 hmem with hhead | htail
    · have hv1 : v.1 = i := by rw [← hhead]
      have hnotin : i ∉ rest.map (fun v => v.1) := by
        rw [← hv1]
        exact hnd.1
      rw [applyPaths_getD_of_not_mem rest i _ hnotin]
      unfold setSlot
      show ((meta.shardHashes.set v.1 _).getD i default) = _
      rw [hv1, getD_set_eq_of_lt _ _ _ _ hi]
      rw [← hhead]
    · have hv1 : v.1 ≠ i := by
        intro hcon
        apply hnd.1
        rw [hcon]
        exact List.mem_map_of_mem (fun v => v.1) htail
      rw [ih _ hnd.2 htail (by simp [setSlot, hi])]
      unfold setSlot
      show ShardStorage.mk _ _ _ _ = _
      rw [show ((meta.shardHashes.set v.1
          { meta.shardHashes.getD v.1 default with
              storageType := v.2.1, bucketName := v.2.2.1,
              key := v.2.2.2 }).getD i default)
        = meta.shardHashes.getD i default from
        getD_set_ne_of_ne _ _ _ _ _ (fun hcon => hv1 hcon.symm)]

/-- The manifests written to the metadata store during a run, in call
order. -/
def persistedMetas (trace : List Event) : List ObjectMetadata :=
  trace.filterMap (fun ev =>
    match ev with
    | .createMeta m2 => some m2
    | _ => none)

/-- The cleanup pass persists nothing. -/
theorem persistedMetas_cleanup (p : RoundRobinPlacer) (env : UploadEnv)
    (key : String) : persistedMetas (cleanupEvents p env key) = [] := by
  apply List.filterMap_eq_nil_iff.2
  intro ev hev
  obtain ⟨b, _, hmatch⟩ := List.mem_filterMap.1 hev
  revert hmatch
  cases getRepositoryForBucket p b with
  | error e => simp
  | ok r =>
    intro hmatch
    have hev2 : ev = Event.cleanupCall b key (env.cleanupFails b) := by
      simpa using hmatch.symm
    rw [hev2]

/-- Concatenating an object key, a separator and a hash never yields the
empty string. -/
theorem key_slash_hash_ne_empty (a b : String) : a ++ "/" ++ b ≠ "" := by
  intro h
  simpa using congrArg String.data h

/-- A successful `UploadFile` run implies a registered bucket list, the
success of every scheduled shard upload, and that the stamped manifest is
the one handed to the metadata store. -/
theorem uploadFile_ok_inv (p : RoundRobinPlacer) (env : UploadEnv)
    (rs : RSBackend) (key : String) (data : List Nat) (k m : Nat)
    (hk : 1 ≤ k) (hm : 1 ≤ m) (hd : data ≠ [])
    (hcomp : env.comp.Perm (List.range (k + m)))
    (hres : (UploadFile p env rs key data k m).2 = .ok ()) :
    (¬ p.buckets.length = 0) ∧
    (∀ i, i < k + m → env.uploadOk i = true) ∧
    uploadShards p env key (rsShards rs data k m)
        (stampName (rsMeta rs data k m) key) m
      = .ok (applyPaths (stampName (rsMeta rs data k m) key)
          (uploadPaths p env key (stampName (rsMeta rs data k m) key) (k + m))) := by
  have herrnil : uploadErrs p env key (stampName (rsMeta rs data k m) key) (k + m)
      = [] := by
    cases herrs : uploadErrs p env key (stampName (rsMeta rs data k m) key) (k + m) with
    | nil => rfl
    | cons e0 rest =>
      exfalso
      have hup := uploadShards_first_error p env key (rsShards rs data k m)
        (stampName (rsMeta rs data k m) key) m e0 rest
        (by rw [rsShards_length]; exact herrs)
      rw [uploadFile_eq p env rs key data k m hk hm hd, hup] at hres
      simp at hres
  refine ⟨?_, ?_, ?_⟩
  · intro h0
    have h0in : (0 : Nat) ∈ env.comp := hcomp.mem_iff.2 (List.mem_range.2 (by omega))
    have hatt : shardAttempt p env key (stampName (rsMeta rs data k m) key) 0
        = .error .noBucketsRegistered := by
      unfold shardAttempt place
      rw [if_pos h0]
    have hmem := mem_uploadErrs p env key (stampName (rsMeta rs data k m) key)
      (k + m) 0 .noBucketsRegistered h0in (by omega) hatt
    rw [herrnil] at hmem
    simp at hmem
  · intro i hin
    by_contra hko
    have hko2 : env.uploadOk i = false := Bool.not_eq_true _ ▸ Bool.of_not_eq_true hko
    obtain ⟨e, he⟩ := shardAttempt_error_of_failed p env key
      (stampName (rsMeta rs data k m) key) i hko2
    have hicomp : i ∈ env.comp := hcomp.mem_iff.2 (List.mem_range.2 hin)
    have hmem := mem_uploadErrs p env key (stampName (rsMeta rs data k m) key)
      (k + m) i e hicomp hin he
    rw [herrnil] at hmem
    simp at hmem
  · rw [uploadShards_ok p env key (rsShards rs data k m)
        (stampName (rsMeta rs data k m) key) m
        (by rw [rsShards_length]; exact herrnil), rsShards_length]

/-- C3.  For every upload that returns success, the persisted manifest has
exactly `k + m` shard slots, and every slot carries a non-empty backend
kind, bucket name and storage key, where the storage key of slot `i`
equals `key ++ "/" ++ hash_i` with `hash_i` the CRC64-ISO 16-hex
fingerprint of shard `i` computed at encode time.  The hypotheses record
that the registered bucket names are non-empty and the physical bucket
names of the drivers contain no separator, as S3/GCS bucket naming
guarantees. -/
theorem uploaded_manifest_slots (p : RoundRobinPlacer) (env : UploadEnv)
    (rs : RSBackend) (key : String) (data : List Nat) (k m : Nat)
    (hk : 1 ≤ k) (hm : 1 ≤ m) (hd : data ≠ [])
    (hcomp : env.comp.Perm (List.range (k + m)))
    (hphys : ∀ x ∈ p.buckets, ∀ c ∈ (x.2.physName).data, c ≠ '/')
    (hbn : ∀ x ∈ p.buckets, x.1 ≠ "")
    (hres : (UploadFile p env rs key data k m).2 = .ok ()) :
    ∃ m2, persistedMetas (UploadFile p env rs key data k m).1 = [m2] ∧
      m2.shardHashes.length = k + m ∧
      ∀ i, i < k + m →
        (m2.shardHashes.getD i default).storageType ≠ "" ∧
        (m2.shardHashes.getD i default).bucketName ≠ "" ∧
        (m2.shardHashes.getD i default).key ≠ "" ∧
        (m2.shardHashes.getD i default).hash
          = hex16 (crc64 ((rsShards rs data k m).getD i [])) ∧
        (m2.shardHashes.getD i default).key
          = key ++ "/" ++ (m2.shardHashes.getD i default).hash := by
  obtain ⟨hne, hall, hok⟩ :=
    uploadFile_ok_inv p env rs key data k m hk hm hd hcomp hres
  have hnelist : p.buckets ≠ [] := by
    intro hcontra
    exact hne (by rw [hcontra]; rfl)
  have hmlen1 : (stampName (rsMeta rs data k m) key).shardHashes.length = k + m :=
    rsMeta_hashes_length rs data k m
  refine ⟨applyPaths (stampName (rsMeta rs data k m) key)
      (uploadPaths p env key (stampName (rsMeta rs data k m) key) (k + m)), ?_, ?_, ?_⟩
  · rw [uploadFile_eq p env rs key data k m hk hm hd, hok]
    show persistedMetas (cleanupEvents p env key ++ [Event.createMeta _]) = _
    unfold persistedMetas
    rw [List.filterMap_append]
    rw [show List.filterMap _ (cleanupEvents p env key) = [] from
      persistedMetas_cleanup p env key]
    rfl
  · rw [applyPaths_length, hmlen1]
  · intro i hi
    have hpaths := uploadPaths_eq_map p env key
      (stampName (rsMeta rs data k m) key) (k + m) hne hall
    have hfst : (uploadPaths p env key (stampName (rsMeta rs data k m) key)
        (k + m)).map (fun v => v.1)
        = env.comp.filter (fun i => decide (i < k + m)) := by
      rw [hpaths, List.map_map]
      have hcompose : ((fun (v : Nat × String × String × String) => v.1)
          ∘ okVal p key (stampName (rsMeta rs data k m) key)) = fun i => i := by
        funext j
        rfl
      rw [hcompose, List.map_id']
    have hnd : ((uploadPaths p env key (stampName (rsMeta rs data k m) key)
        (k + m)).map (fun v => v.1)).Nodup := by
      rw [hfst]
      exact List.Nodup.filter _ (hcomp.nodup_iff.2 (List.nodup_range _))
    have hmem : okVal p key (stampName (rsMeta rs data k m) key) i
        ∈ uploadPaths p env key (stampName (rsMeta rs data k m) key) (k + m) := by
      rw [hpaths]
      apply List.mem_map_of_mem
      exact List.mem_filter.2 ⟨hcomp.mem_iff.2 (List.mem_range.2 hi), by simp [hi]⟩
    have hslot := applyPaths_getD_of_mem
      (uploadPaths p env key (stampName (rsMeta rs data k m) key) (k + m)) i
      ((placeRepo p i).kind.storageType) (placeName p i)
      ((splitFirstSlash ((placeRepo p i).physName ++ "/"
        ++ (key ++ "/" ++ ((stampName (rsMeta rs data k m) key).shardHashes.getD
              i default).hash))).2)
      (stampName (rsMeta rs data k m) key) hnd hmem (by omega)
    have hpair := placeRepo_mem p i hnelist
    have hmeta1 : (stampName (rsMeta rs data k m) key).shardHashes.getD i default
        = ShardStorage.mk (hex16 (crc64 ((rsShards rs data k m).getD i [])))
            ("") ("") ("") := by
      show ((rsShards rs data k m).map
        (fun s => ShardStorage.mk (hex16 (crc64 s)) "" "" "")).getD i default = _
      rw [getD_map_of_lt _ _ i default [] (by rw [rsShards_length]; omega)]
    have hsplit : (splitFirstSlash ((placeRepo p i).physName ++ "/"
        ++ (key ++ "/" ++ ((stampName (rsMeta rs data k m) key).shardHashes.getD
              i default).hash))).2
        = key ++ "/" ++ ((stampName (rsMeta rs data k m) key).shardHashes.getD
              i default).hash :=
      splitFirstSlash_snd _ _ (hphys _ hpair)
    rw [hslot, hmeta1] at *
    rw [hsplit]
    refine ⟨?_, ?_, ?_, rfl, ?_⟩
    · cases (placeRepo p i).kind <;> simp [RepoKind.storageType]
    · exact hbn _ hpair
    · exact key_slash_hash_ne_empty _ _
    · rfl

/-- Witness for C3 at a successful three-shard upload over the two
concrete buckets. -/
theorem uploaded_manifest_slots_witness :
    ∃ m2, persistedMetas (UploadFile pW envW zeroRS ("a/b.bin") [1, 2, 3] 2 1).1 = [m2] ∧
      m2.shardHashes.length = 2 + 1 ∧
      ∀ i, i < 2 + 1 →
        (m2.shardHashes.getD i default).storageType ≠ "" ∧
        (m2.shardHashes.getD i default).bucketName ≠ "" ∧
        (m2.shardHashes.getD i default).key ≠ "" ∧
        (m2.shardHashes.getD i default).hash
          = hex16 (crc64 ((rsShards zeroRS [1, 2, 3] 2 1).getD i [])) ∧
        (m2.shardHashes.getD i default).key
          = ("a/b.bin") ++ "/" ++ (m2.shardHashes.getD i default).hash :=
  uploaded_manifest_slots pW envW zeroRS ("a/b.bin") [1, 2, 3] 2 1
    (by decide) (by decide) (by decide) (by decide) (by decide) (by decide) (by decide)

end Zstore
